import Mathlib

set_option maxHeartbeats 1000000

namespace Vcpsave

/-! Shallow embedding of the retention/cleanup core of the vcpsave backup
program (src/main.go).  Strings are Lean strings, i.e. lists of unicode
scalar values, which matches the rune-based semantics of Go's regexp
package.  Wall-clock instants are modelled as integer seconds on the
local timeline; Go durations are 64-bit nanosecond counts obtained by
saturating subtraction, and Go int arithmetic wraps at 64 bits, both
modelled exactly (the program compares second-granularity ages, for
which the float64 `Hours()` comparison coincides with the exact
nanosecond comparison). -/

/-- Shape of the regexp group `(\d{8}_\d{6})` of parseFileName: eight
ASCII digits, an underscore, six ASCII digits (Go's `\d` is `[0-9]`). -/
def tsShape (l : List Char) : Bool :=
  ((l.take 8).length == 8 && (l.take 8).all Char.isDigit) &&
    match l.drop 8 with
    | '_' :: rest => rest.length == 6 && rest.all Char.isDigit
    | _ => false

/-- Match of the part of parseFileName's anchored regexp that follows the
lazy first capture group: an underscore, the 15-character timestamp
group, a literal dot, and `.+$`, i.e. a non-empty run of non-newline
characters reaching the end of the string (Go's `.` excludes newline and
`$` without the multiline flag matches only at end of text).  Returns
the characters of the timestamp group on success. -/
def tailMatch (l : List Char) : Option (List Char) :=
  if l.head? = some '_' then
    if tsShape (l.tail.take 15) then
      if (l.tail.drop 15).head? = some '.' then
        let ext := (l.tail.drop 15).tail
        if !ext.isEmpty && ext.all (fun d => d != '\n') then some (l.tail.take 15)
        else none
      else none
    else none
  else none

/-- Leftmost-first search for the split point of the anchored regexp
`(.+?)_(\d{8}_\d{6})\..+` : candidate first-group values of increasing
length are tried, shortest first, exactly as the non-greedy quantifier
does; a newline ends the search because `.` cannot consume it. -/
def findSplit : List Char → List Char → Option (List Char × List Char)
  | _, [] => none
  | pre, c :: cs =>
    if c = '\n' then none
    else
      match tailMatch cs with
      | some ts => some (pre ++ [c], ts)
      | none => findSplit (pre ++ [c]) cs

/-- Go `parseFileName` (src/main.go:268-280): applies the regexp
`^(.+?)_(\d{8}_\d{6})\..+$` to the file name; on a match returns the two
capture groups with the recognized flag true, otherwise empty strings
and false. -/
def parseFileName (fileName : String) : String × String × Bool :=
  match findSplit [] fileName.toList with
  | some (p, ts) => (String.mk p, String.mk ts, true)
  | none => ("", "", false)

/-- The canonical-pattern predicate of the specification: some split of
the string matches `^(.+?)_(\d{8}_\d{6})\..+$` — a non-empty newline-free
first part, an underscore, the timestamp group, a dot and a non-empty
newline-free extension. -/
def matchesPattern (s : String) : Bool :=
  (List.range (s.toList.length + 1)).any fun i =>
    i != 0 && (s.toList.take i).all (fun c => c != '\n') && (tailMatch (s.toList.drop i)).isSome

/-- A position in the string at which the ambiguous sub-pattern
`_\d{8}_\d{6}` begins. -/
def ambigAt (l : List Char) : Bool :=
  l.head? == some '_' && tsShape (l.tail.take 15)

/-- Whether the string contains the ambiguous sub-pattern `_\d{8}_\d{6}`
anywhere (the hazard for the non-greedy first capture group). -/
def hasAmbiguousTs (s : String) : Bool :=
  (List.range s.toList.length).any fun i => ambigAt (s.toList.drop i)

/-- A parsed wall-clock timestamp, the six numeric fields Go's
`time.ParseInLocation("20060102_150405", ...)` extracts. -/
structure DateTime where
  year : Nat
  month : Nat
  day : Nat
  hour : Nat
  minute : Nat
  second : Nat
deriving DecidableEq

/-- Proleptic Gregorian leap-year rule, as in Go's time package. -/
def isLeapYear (y : Nat) : Bool :=
  y % 4 == 0 && (y % 100 != 0 || y % 400 == 0)

/-- Days in a month, as Go's `daysIn` used by the parser's range check. -/
def daysInMonth (m y : Nat) : Nat :=
  if m = 2 then (if isLeapYear y then 29 else 28)
  else if m = 4 ∨ m = 6 ∨ m = 9 ∨ m = 11 then 30
  else 31

/-- Numeric value of an ASCII digit. -/
def digitVal (c : Char) : Nat := c.toNat - '0'.toNat

/-- Value of a fixed two-digit field. -/
def twoDigits (a b : Char) : Option Nat :=
  if a.isDigit && b.isDigit then some (10 * digitVal a + digitVal b) else none

/-- Go `time.ParseInLocation("20060102_150405", timeStamp, time.Local)`:
the input must be exactly four year digits, two month digits, two day
digits, an underscore, and two digits each for hour, minute and second;
the fields must be in range (month 1-12, day 1 to the month's length,
hour 0-23, minute and second 0-59).  Any violation is a parse error,
modelled as `none`. -/
def parseTimestamp (ts : String) : Option DateTime :=
  match ts.toList with
  | [y1, y2, y3, y4, m1, m2, d1, d2, u, h1, h2, n1, n2, s1, s2] =>
    if u = '_' then
      match twoDigits y1 y2, twoDigits y3 y4, twoDigits m1 m2, twoDigits d1 d2,
            twoDigits h1 h2, twoDigits n1 n2, twoDigits s1 s2 with
      | some yh, some yl, some mo, some dy, some hr, some mi, some se =>
        let yr := 100 * yh + yl
        if 1 ≤ mo && mo ≤ 12 && 1 ≤ dy && dy ≤ daysInMonth mo yr
            && hr ≤ 23 && mi ≤ 59 && se ≤ 59 then
          some ⟨yr, mo, dy, hr, mi, se⟩
        else none
      | _, _, _, _, _, _, _ => none
    else none
  | _ => none

/-- Leap years before year `y` in the proleptic Gregorian calendar
(year 0 counts as a leap year). -/
def leapsBefore (y : Nat) : Nat :=
  (y + 3) / 4 - (y + 99) / 100 + (y + 399) / 400

/-- Days of the year before the first of month `m`. -/
def daysBeforeMonth (m : Nat) (leap : Bool) : Nat :=
  (match m with
   | 1 => 0 | 2 => 31 | 3 => 59 | 4 => 90 | 5 => 120 | 6 => 151
   | 7 => 181 | 8 => 212 | 9 => 243 | 10 => 273 | 11 => 304 | _ => 334)
  + (if leap && m > 2 then 1 else 0)

/-- Seconds since 0000-01-01 00:00:00 on the local wall-clock timeline;
this is the absolute-seconds arithmetic Go's time package performs, so
differences of two instants agree with Go's `Sub`. -/
def toSeconds (dt : DateTime) : Int :=
  ((365 * dt.year + leapsBefore dt.year + daysBeforeMonth dt.month (isLeapYear dt.year)
      + (dt.day - 1)) * 86400
    + dt.hour * 3600 + dt.minute * 60 + dt.second : Nat)

/-- Wrapping 64-bit signed arithmetic: the value of a Go `int`
expression, reduced into the interval from -2^63 to 2^63 - 1. -/
def int64Wrap (x : Int) : Int := (x + 2 ^ 63) % 2 ^ 64 - 2 ^ 63

/-- Go `Time.Sub` saturates: a `time.Duration` is a 64-bit count of
nanoseconds, and an out-of-range difference is clamped to the minimum
-2^63 ns or maximum 2^63 - 1 ns. -/
def clampDuration (ns : Int) : Int := max (-(2 ^ 63)) (min ns (2 ^ 63 - 1))

/-- Go `isFileOlderThanDays` (src/main.go:283-305): parses the timestamp
as local wall-clock time, returning false on a parse failure; otherwise
true iff the age `now.Sub(parsedTime)` strictly exceeds `maxDays * 24`
hours.  `now.Sub` yields a saturating 64-bit nanosecond duration and
`maxDays * 24` is wrapping 64-bit int arithmetic; both are modelled
exactly.  Go then compares `age.Hours() > float64(maxDays*24)` in
float64; because the age is a whole number of seconds or one of the two
saturation bounds, and the two sides of that comparison are never closer
than 1/3600 hour apart unless equal (while the float evaluation of
Hours is accurate to within about 2^-31 hour at these magnitudes, and a
threshold too large for exact float64 conversion dwarfs every
representable age), the float comparison coincides with the exact
nanosecond comparison used here.  `now` is Go's `time.Now()`, lifted to
a parameter. -/
def isFileOlderThanDays (timeStamp : String) (maxDays : Int) (now : Int) : Bool :=
  match parseTimestamp timeStamp with
  | none => false
  | some dt =>
    clampDuration ((now - toSeconds dt) * 1000000000)
      > int64Wrap (maxDays * 24) * 3600 * 1000000000

/-- Go `isWhitelisted` (src/main.go:308-315): exact string equality
against each whitelist entry.  `pfx` is the first capture group of
parseFileName (named after the part before the timestamp). -/
def isWhitelisted (pfx : String) (whitelist : List String) : Bool :=
  match whitelist with
  | [] => false
  | allowed :: rest => if pfx = allowed then true else isWhitelisted pfx rest

/-- The result of parseFileName, packaged: the two capture groups and
the recognized-format flag. -/
structure DecodedArtifact where
  pfx : String
  timeStamp : String
  recognized : Bool
deriving DecidableEq

/-- The per-key decision of performCleanup's loop body
(src/main.go:498-527): three skip reasons, in the order of the code's
`continue` branches, or deletion. -/
inductive CleanupDecision
  | skipUnrecognizedFormat
  | skipWithinRetention
  | skipWhitelisted
  | delete
deriving DecidableEq

/-- Decision of performCleanup's loop body (src/main.go:499-517) on a
decoded artifact: skip keys not in our format, then keys not older than
the retention threshold, then whitelisted ones; delete the rest. -/
def classify (d : DecodedArtifact) (maxDays : Int) (wl : List String) (now : Int) :
    CleanupDecision :=
  if !d.recognized then .skipUnrecognizedFormat
  else if !isFileOlderThanDays d.timeStamp maxDays now then .skipWithinRetention
  else if isWhitelisted d.pfx wl then .skipWhitelisted
  else .delete

/-- parseFileName's result as a DecodedArtifact. -/
def decodeKey (fileName : String) : DecodedArtifact :=
  match parseFileName fileName with
  | (p, ts, r) => ⟨p, ts, r⟩

/-- Decision of performCleanup's loop body on a raw object key. -/
def classifyKey (fileName : String) (maxDays : Int) (wl : List String) (now : Int) :
    CleanupDecision :=
  classify (decodeKey fileName) maxDays wl now

/-- Observable outcome of the key loop of performCleanup
(src/main.go:497-527): every key with the decision taken on it, in
order, and the count of keys whose deletion succeeded. -/
structure CleanupResult where
  processed : List (String × CleanupDecision)
  deletedCount : Nat
deriving DecidableEq

/-- The key loop of performCleanup (src/main.go:497-527).  `deleteFn`
models `deleteCOSFile`'s success or failure per key; a failed deletion
is logged and the loop continues, only successes increment the count. -/
def runKeys (keys : List String) (maxDays : Int) (wl : List String) (now : Int)
    (deleteFn : String → Bool) : CleanupResult :=
  match keys with
  | [] => ⟨[], 0⟩
  | k :: rest =>
    let d := classifyKey k maxDays wl now
    let r := runKeys rest maxDays wl now deleteFn
    if d = .delete then
      if deleteFn k then ⟨(k, d) :: r.processed, r.deletedCount + 1⟩
      else ⟨(k, d) :: r.processed, r.deletedCount⟩
    else ⟨(k, d) :: r.processed, r.deletedCount⟩

/-- Digits of a Go base-10 integer literal: non-empty, ASCII digits
only; value accumulated most-significant first. -/
def digitsVal (l : List Char) : Option Nat :=
  if l.isEmpty then none
  else
    l.foldl
      (fun acc c =>
        match acc with
        | none => none
        | some v => if c.isDigit then some (v * 10 + digitVal c) else none)
      (some 0)

/-- Go `strconv.Atoi`: optional sign, then decimal digits only; errors
(empty string, stray characters, value outside the 64-bit int range) are
`none`. -/
def atoi (s : String) : Option Int :=
  match s.toList with
  | [] => none
  | '+' :: rest =>
    (digitsVal rest).bind fun v =>
      if (v : Int) ≤ 2 ^ 63 - 1 then some (v : Int) else none
  | '-' :: rest =>
    (digitsVal rest).bind fun v =>
      if (v : Int) ≤ 2 ^ 63 then some (-(v : Int)) else none
  | l =>
    (digitsVal l).bind fun v =>
      if (v : Int) ≤ 2 ^ 63 - 1 then some (v : Int) else none

/-- The CLEANUP_DAYS handling of performCleanup (src/main.go:477-483):
start from the default 7; if the variable is non-empty and `Atoi`
succeeds, use the parsed value (an absent variable reads as ""). -/
def cleanupDaysOf (cleanupDaysStr : String) : Int :=
  if cleanupDaysStr = "" then 7
  else
    match atoi cleanupDaysStr with
    | some days => days
    | none => 7

/-- Go's `unicode.IsSpace` on the ASCII range (the range relevant to
this program's configuration strings). -/
def goIsSpace (c : Char) : Bool :=
  c = ' ' || c = '\t' || c = '\n' || c = Char.ofNat 11 || c = Char.ofNat 12 || c = '\r'

/-- Go `strings.TrimSpace` on ASCII whitespace. -/
def trimList (l : List Char) : List Char :=
  ((l.dropWhile goIsSpace).reverse.dropWhile goIsSpace).reverse

/-- Go `strings.Split(s, ",")`: the comma-separated pieces, empty pieces
kept ("" splits to one empty piece). -/
def splitOnComma (l : List Char) : List (List Char) :=
  match l with
  | [] => [[]]
  | c :: cs =>
    if c = ',' then [] :: splitOnComma cs
    else
      match splitOnComma cs with
      | h :: t => (c :: h) :: t
      | [] => [[c]]

/-- Go `getWhiteList` (src/main.go:250-265): an empty CLEANUP_WHITELIST
gives the empty list; otherwise split on commas, trim each entry, and
drop entries that become empty. -/
def getWhiteList (whitelistStr : String) : List String :=
  if whitelistStr = "" then []
  else
    ((splitOnComma whitelistStr.toList).map (fun e => String.mk (trimList e))).filter
      (fun t => t ≠ "")

/-- Observable outcome of a whole performCleanup call: whether the pass
got as far as listing the bucket, plus the key-loop outcome. -/
structure CleanupOutcome where
  listed : Bool
  processed : List (String × CleanupDecision)
  deletedCount : Nat
deriving DecidableEq

/-- Go `performCleanup` (src/main.go:466-530), with the object-store
listing abstracted to the key list it returned and `deleteCOSFile`'s
per-key success abstracted to `deleteFn`.  When CLEANUP_ENABLED is not
exactly "true" the function returns before reading any configuration or
touching the store. -/
def performCleanup (cleanupEnabled cleanupDaysStr whitelistStr : String)
    (keys : List String) (now : Int) (deleteFn : String → Bool) : CleanupOutcome :=
  if cleanupEnabled ≠ "true" then ⟨false, [], 0⟩
  else
    let cleanupDays := cleanupDaysOf cleanupDaysStr
    let whitelist := getWhiteList whitelistStr
    let r := runKeys keys cleanupDays whitelist now deleteFn
    ⟨true, r.processed, r.deletedCount⟩

/-- Go `filepath.Base` (unix separators): empty path gives ".", trailing
slashes are dropped, then everything up to the last slash; an
all-slashes path gives "/". -/
def filepathBase (path : String) : String :=
  if path.toList.isEmpty then "."
  else
    let l := (path.toList.reverse.dropWhile (fun c => c == '/')).reverse
    if l.isEmpty then "/"
    else String.mk ((l.reverse.takeWhile (fun c => c != '/')).reverse)

/-- Scan of a reversed path for Go `filepath.Ext`: walk from the end,
stop at a separator with no extension, or return from the last dot. -/
def extRev : List Char → List Char → List Char
  | _, [] => []
  | acc, c :: cs =>
    if c = '/' then []
    else if c = '.' then '.' :: acc
    else extRev (c :: acc) cs

/-- Go `filepath.Ext`: the suffix of the final path element beginning at
its final dot, or empty if there is none. -/
def filepathExt (path : String) : String :=
  String.mk (extRev [] path.toList.reverse)

/-- Go `generateFileName` (src/main.go:108-124), with `time.Now()`'s
formatted timestamp lifted to the `timeStamp` parameter: directories map
to `base_timeStamp.zip`; files keep their extension, the timestamp
inserted before it. -/
def generateFileName (sourcePath : String) (isDir : Bool) (timeStamp : String) : String :=
  let fileName := filepathBase sourcePath
  if isDir then fileName ++ "_" ++ timeStamp ++ ".zip"
  else
    let ext := filepathExt fileName
    let nameWithoutExt := String.mk (fileName.toList.take (fileName.toList.length - ext.toList.length))
    nameWithoutExt ++ "_" ++ timeStamp ++ ext

example : parseFileName "test1_20251021_095449.txt" = ("test1", "20251021_095449", true) := by
  decide

example : parseFileName "VCPToolBox_20251021_095449.zip" = ("VCPToolBox", "20251021_095449", true) := by
  decide

example : parseFileName "notes.txt" = ("", "", false) := by decide

example : parseFileName "report_20250101_000000_20251021_095449.csv"
    = ("report_20250101_000000", "20251021_095449", true) := by decide

example : parseTimestamp "20251021_095449" = some ⟨2025, 10, 21, 9, 54, 49⟩ := by decide

example : parseTimestamp "20251301_000000" = none := by decide

example : parseTimestamp "20240229_120000" = some ⟨2024, 2, 29, 12, 0, 0⟩ := by decide

example : parseTimestamp "20230229_120000" = none := by decide

example : atoi "-3" = some (-3) := by decide

example : atoi "007" = some 7 := by decide

example : atoi "7x" = none := by decide

example : atoi "" = none := by decide

example : cleanupDaysOf "" = 7 := by decide

example : getWhiteList " a , ,b" = ["a", "b"] := by decide

example : generateFileName "/data/notes.txt" false "20251021_095449" = "notes_20251021_095449.txt" := by
  decide

example : generateFileName "/data/proj" true "20251021_095449" = "proj_20251021_095449.zip" := by
  decide

example : generateFileName "notes" false "20251021_095449" = "notes_20251021_095449" := by
  decide

/-- Structure of a character list accepted by tsShape: eight digits, an
underscore, six digits. -/
theorem tsShape_split {l : List Char} (h : tsShape l = true) :
    ∃ d8 d6, l = d8 ++ '_' :: d6 ∧ d8.length = 8 ∧ d6.length = 6 ∧
      (∀ c ∈ d8, c.isDigit = true) ∧ ∀ c ∈ d6, c.isDigit = true := by
  simp only [tsShape, Bool.and_eq_true, beq_iff_eq] at h
  obtain ⟨⟨hlen8, hall8⟩, hm⟩ := h
  split at hm
  next rest heq =>
    simp only [Bool.and_eq_true, beq_iff_eq] at hm
    refine ⟨l.take 8, rest, ?_, hlen8, hm.1, ?_, ?_⟩
    · conv_lhs => rw [← List.take_append_drop 8 l]
      rw [heq]
    · exact fun c hc => (List.all_eq_true.mp hall8) c hc
    · exact fun c hc => (List.all_eq_true.mp hm.2) c hc
  next => exact absurd hm (by simp)

/-- A tsShape-accepted list has exactly 15 characters. -/
theorem tsShape_length {l : List Char} (h : tsShape l = true) : l.length = 15 := by
  obtain ⟨d8, d6, rfl, h8, h6, -, -⟩ := tsShape_split h
  simp [h8, h6]

/-- No character of a tsShape-accepted list is a dot. -/
theorem tsShape_no_dot {l : List Char} (h : tsShape l = true) : ∀ c ∈ l, c ≠ '.' := by
  obtain ⟨d8, d6, rfl, -, -, hd8, hd6⟩ := tsShape_split h
  intro c hc
  rcases List.mem_append.mp hc with h1 | h1
  · intro hcon
    subst hcon
    exact absurd (hd8 _ h1) (by decide)
  · rcases List.mem_cons.mp h1 with rfl | h2
    · decide
    · intro hcon
      subst hcon
      exact absurd (hd6 _ h2) (by decide)

/-- tailMatch accepts the well-formed tail: an underscore, a
tsShape-accepted timestamp, a dot, and a non-empty newline-free
extension. -/
theorem tailMatch_of_shape (ts ext : List Char) (hts : tsShape ts = true)
    (hext : ext ≠ []) (hextn : ∀ c ∈ ext, c ≠ '\n') :
    tailMatch ('_' :: (ts ++ '.' :: ext)) = some ts := by
  have hlen := tsShape_length hts
  have hcond : (!ext.isEmpty && ext.all fun d => d != '\n') = true := by
    rcases ext with _ | ⟨c, cs⟩
    · exact absurd rfl hext
    · simp only [List.isEmpty_cons, Bool.not_false, Bool.true_and]
      rw [List.all_eq_true]
      intro d hd
      simpa using hextn d hd
  simp only [tailMatch, List.head?_cons, List.tail_cons,
    List.take_left' hlen, List.drop_left' hlen, hts, hcond]
  simp

/-- tailMatch rejects every list whose seventeenth character is not the
required dot. -/
theorem tailMatch_none_of_no_dot {l : List Char}
    (h : (l.drop 16).head? ≠ some '.') : tailMatch l = none := by
  have key : l.tail.drop 15 = l.drop 16 := by
    rw [← List.drop_one, List.drop_drop]
  simp only [tailMatch, key]
  by_cases h1 : l.head? = some '_'
  · rw [if_pos h1]
    by_cases h2 : tsShape (l.tail.take 15) = true
    · rw [if_pos h2, if_neg h]
    · rw [if_neg h2]
  · rw [if_neg h1]

/-- A successful tailMatch begins with the ambiguous sub-pattern. -/
theorem ambigAt_of_tailMatch {l ts : List Char} (h : tailMatch l = some ts) :
    ambigAt l = true := by
  by_cases h1 : l.head? = some '_'
  · by_cases h2 : tsShape (l.tail.take 15) = true
    · simp [ambigAt, h1, h2]
    · exact absurd h (by simp [tailMatch, h1, h2])
  · exact absurd h (by simp [tailMatch, h1])

/-- ambigAt only looks at the first sixteen characters. -/
theorem ambigAt_append {l₁ l₂ : List Char} (h : 16 ≤ l₁.length)
    (ha : ambigAt (l₁ ++ l₂) = true) : ambigAt l₁ = true := by
  rcases l₁ with _ | ⟨c, t⟩
  · simp at h
  · simp only [ambigAt, List.cons_append, List.head?_cons, List.tail_cons] at ha ⊢
    rwa [List.take_append_of_le_length (by simp at h; omega)] at ha

/-- dropWhile is the identity when the head already fails the test. -/
theorem dropWhile_eq_self_of_all {p : Char → Bool} {l : List Char}
    (h : ∀ c ∈ l, p c = false) : l.dropWhile p = l := by
  cases l with
  | nil => rfl
  | cons c cs =>
    rw [List.dropWhile_cons, if_neg]
    simp [h c (List.mem_cons_self c cs)]

/-- takeWhile is the identity when every element passes the test. -/
theorem takeWhile_eq_self_of_all {p : Char → Bool} {l : List Char}
    (h : ∀ c ∈ l, p c = true) : l.takeWhile p = l := by
  induction l with
  | nil => rfl
  | cons c cs ih =>
    rw [List.takeWhile_cons, if_pos (h c (List.mem_cons_self c cs)),
      ih (fun d hd => h d (List.mem_cons_of_mem c hd))]

/-- filepathBase is the identity on a non-empty name without path
separators. -/
theorem filepathBase_of_no_slash {s : String} (hne : s.toList ≠ [])
    (h : ∀ c ∈ s.toList, c ≠ '/') : filepathBase s = s := by
  have hemp : s.toList.isEmpty = false := by
    rcases hl : s.toList with _ | ⟨c, cs⟩
    · exact absurd hl hne
    · rfl
  have hdrop : s.toList.reverse.dropWhile (fun c => c == '/') = s.toList.reverse := by
    apply dropWhile_eq_self_of_all
    intro c hc
    simpa using h c (List.mem_reverse.mp hc)
  have htakeW : s.toList.reverse.takeWhile (fun c => c != '/') = s.toList.reverse := by
    apply takeWhile_eq_self_of_all
    intro c hc
    simpa using h c (List.mem_reverse.mp hc)
  simp only [filepathBase, hemp, hdrop, List.reverse_reverse, htakeW]
  rfl

/-- The scan of extRev over characters that are neither separators nor
dots reaches the dot and returns it with everything scanned so far. -/
theorem extRev_through (rcs : List Char) (acc rest : List Char)
    (h : ∀ c ∈ rcs, c ≠ '/' ∧ c ≠ '.') :
    extRev acc (rcs ++ '.' :: rest) = '.' :: (rcs.reverse ++ acc) := by
  induction rcs generalizing acc with
  | nil => simp [extRev]
  | cons c cs ih =>
    have hc := h c (List.mem_cons_self c cs)
    simp only [List.cons_append, extRev, if_neg hc.1, if_neg hc.2, List.append_eq]
    rw [ih (c :: acc) (fun d hd => h d (List.mem_cons_of_mem c hd))]
    simp

/-- filepathExt of a name of the form stem.extension, the extension free
of separators and dots, is the dot plus the extension. -/
theorem filepathExt_of_split {s : String} {stem ext : List Char}
    (hs : s.toList = stem ++ '.' :: ext)
    (h : ∀ c ∈ ext, c ≠ '/' ∧ c ≠ '.') :
    filepathExt s = String.mk ('.' :: ext) := by
  have hrev : s.toList.reverse = ext.reverse ++ '.' :: stem.reverse := by
    rw [hs]
    simp
  rw [filepathExt, hrev, extRev_through ext.reverse [] stem.reverse
    (fun c hc => h c (List.mem_reverse.mp hc))]
  simp

/-- generateFileName on a source path stem.extension (no separators, the
extension non-empty and free of dots) inserts the timestamp between stem
and extension; stated on the character list of the result. -/
theorem generateFileName_file_toList (L e T : String)
    (hL : L.toList ≠ []) (hLs : ∀ c ∈ L.toList, c ≠ '/')
    (hes : ∀ c ∈ e.toList, c ≠ '/')
    (hed : ∀ c ∈ e.toList, c ≠ '.') :
    (generateFileName (L ++ "." ++ e) false T).toList
      = L.toList ++ ('_' :: (T.toList ++ ('.' :: e.toList))) := by
  have hpath : (L ++ "." ++ e).toList = L.toList ++ '.' :: e.toList := by
    show (L ++ "." ++ e).data = L.data ++ '.' :: e.data
    rw [String.data_append, String.data_append]
    simp
  have hne : (L ++ "." ++ e).toList ≠ [] := by
    rw [hpath]
    rcases hl : L.toList with _ | ⟨c, cs⟩
    · exact absurd hl hL
    · simp
  have hslash : ∀ c ∈ (L ++ "." ++ e).toList, c ≠ '/' := by
    rw [hpath]
    intro c hc
    rcases List.mem_append.mp hc with h1 | h1
    · exact hLs c h1
    · rcases List.mem_cons.mp h1 with rfl | h2
      · decide
      · exact hes c h2
  have hbase : filepathBase (L ++ "." ++ e) = L ++ "." ++ e :=
    filepathBase_of_no_slash hne hslash
  have hext : filepathExt (L ++ "." ++ e) = String.mk ('.' :: e.toList) :=
    filepathExt_of_split hpath (fun c hc => ⟨hes c hc, hed c hc⟩)
  have hextList : (String.mk ('.' :: e.toList)).toList = '.' :: e.toList := rfl
  have htaken : (L ++ "." ++ e).toList.take
      ((L ++ "." ++ e).toList.length - ('.' :: e.toList).length) = L.toList := by
    rw [hpath]
    have hlen : (L.toList ++ '.' :: e.toList).length - ('.' :: e.toList).length
        = L.toList.length := by
      simp
    rw [hlen, List.take_left]
  simp only [generateFileName, Bool.false_eq_true, if_false, hbase, hext, hextList, htaken]
  show (String.mk L.toList ++ "_" ++ T ++ String.mk ('.' :: e.toList)).data
      = L.toList ++ ('_' :: (T.toList ++ ('.' :: e.toList)))
  rw [String.data_append, String.data_append, String.data_append]
  simp [String.toList]

/-- findSplit returns the shortest matching split: if the split after
`n` characters matches and every shorter split fails, the result is the
first `n` characters together with the matched timestamp group. -/
theorem findSplit_eq_some (l : List Char) (n : Nat) (ts : List Char)
    (hn : 0 < n) (hnl : n ≤ l.length)
    (hpre : ∀ c ∈ l.take n, c ≠ '\n')
    (hmatch : tailMatch (l.drop n) = some ts)
    (hmin : ∀ i, 0 < i → i < n → tailMatch (l.drop i) = none) :
    ∀ pre, findSplit pre l = some (pre ++ l.take n, ts) := by
  induction l generalizing n with
  | nil =>
    exact absurd hnl (by simp; omega)
  | cons c cs ih =>
    intro pre
    obtain ⟨m, rfl⟩ : ∃ m, n = m + 1 := ⟨n - 1, by omega⟩
    have htake : (c :: cs).take (m + 1) = c :: cs.take m := rfl
    have hc : c ≠ '\n' := hpre c (by rw [htake]; exact List.mem_cons_self c _)
    cases m with
    | zero =>
      have h1 : tailMatch cs = some ts := hmatch
      simp only [findSplit, if_neg hc, h1, htake, List.take_zero]
    | succ k =>
      have h1 : tailMatch cs = none := hmin 1 (by omega) (by omega)
      simp only [findSplit, if_neg hc, h1]
      have := ih (k + 1) (by omega) (by simpa using hnl)
        (fun d hd => hpre d (by rw [htake]; exact List.mem_cons_of_mem c hd))
        hmatch
        (fun i hi hilt => hmin (i + 1) (by omega) (by omega))
        (pre ++ [c])
      rw [this, htake]
      simp

/-- findSplit fails when every split fails. -/
theorem findSplit_eq_none (l : List Char)
    (h : ∀ i, 0 < i → i ≤ l.length →
      (∀ c ∈ l.take i, c ≠ '\n') → tailMatch (l.drop i) = none) :
    ∀ pre, findSplit pre l = none := by
  induction l with
  | nil => intro pre; rfl
  | cons c cs ih =>
    intro pre
    by_cases hc : c = '\n'
    · simp [findSplit, hc]
    · have h1 : tailMatch cs = none := by
        have := h 1 (by omega) (by simp) ?_
        · exact this
        · intro d hd
          simp only [List.take_succ_cons, List.take_zero] at hd
          rcases List.mem_singleton.mp hd with rfl
          exact hc
      simp only [findSplit, if_neg hc, h1]
      refine ih (fun i hi hlen hall => ?_) (pre ++ [c])
      have := h (i + 1) (by omega) (by simpa using hlen) ?_
      · exact this
      · intro d hd
        rw [List.take_succ_cons] at hd
        rcases List.mem_cons.mp hd with rfl | hd'
        · exact hc
        · exact hall d hd'

/-- A string rejected by the canonical pattern decodes to the
unrecognized result. -/
theorem parseFileName_eq_of_not_matches (s : String) (h : matchesPattern s = false) :
    parseFileName s = ("", "", false) := by
  have hnone : findSplit [] s.toList = none := by
    apply findSplit_eq_none
    intro i hi hlen hall
    cases ht : tailMatch (s.toList.drop i) with
    | none => rfl
    | some ts =>
      exfalso
      have hmem : i ∈ List.range (s.toList.length + 1) := List.mem_range.mpr (by omega)
      have hp := (List.any_eq_false.mp h) i hmem
      apply hp
      have hA : (i != 0) = true := by simpa using Nat.pos_iff_ne_zero.mp hi
      have hB : ((s.toList.take i).all fun c => c != '\n') = true := by
        rw [List.all_eq_true]
        intro d hd
        simpa using hall d hd
      rw [hA, hB, ht]
      rfl
  rw [String.toList] at hnone
  simp [parseFileName, hnone]

/-- C1: for every decoded artifact, retention configuration and current
time, performCleanup's classification follows exactly the short-circuit
order of the code: an unrecognized name is skipped (unrecognized
format); otherwise a name whose age does not exceed the retention
threshold is skipped (within retention window); otherwise a whitelisted
decoded name part is skipped (whitelisted); otherwise and only then the
key is deleted. -/
theorem C1_classify_order (d : DecodedArtifact) (maxDays : Int) (wl : List String) (now : Int) :
    (d.recognized = false → classify d maxDays wl now = .skipUnrecognizedFormat) ∧
    (d.recognized = true → isFileOlderThanDays d.timeStamp maxDays now = false →
      classify d maxDays wl now = .skipWithinRetention) ∧
    (d.recognized = true → isFileOlderThanDays d.timeStamp maxDays now = true →
      isWhitelisted d.pfx wl = true → classify d maxDays wl now = .skipWhitelisted) ∧
    (d.recognized = true → isFileOlderThanDays d.timeStamp maxDays now = true →
      isWhitelisted d.pfx wl = false → classify d maxDays wl now = .delete) := by
  refine ⟨fun h1 => ?_, fun h1 h2 => ?_, fun h1 h2 h3 => ?_, fun h1 h2 h3 => ?_⟩
  · simp [classify, h1]
  · simp [classify, h1, h2]
  · simp [classify, h1, h2, h3]
  · simp [classify, h1, h2, h3]

/-- C1 witness: a recognized key from January 2020, checked in October
2025 with a 7-day threshold and a non-matching whitelist, reaches the
delete branch. -/
theorem C1_classify_order_witness :
    classify ⟨"backup", "20200101_000000", true⟩ 7 ["other"]
        (toSeconds ⟨2025, 10, 21, 10, 0, 0⟩) = .delete :=
  (C1_classify_order ⟨"backup", "20200101_000000", true⟩ 7 ["other"]
      (toSeconds ⟨2025, 10, 21, 10, 0, 0⟩)).2.2.2 rfl (by decide) (by decide)

/-- int64Wrap is the identity on values already in the 64-bit range. -/
theorem int64Wrap_eq_self {x : Int} (h1 : -(2 ^ 63) ≤ x) (h2 : x < 2 ^ 63) :
    int64Wrap x = x := by
  have h3 : (x + 2 ^ 63) % 2 ^ 64 = x + 2 ^ 63 := Int.emod_eq_of_lt (by omega) (by omega)
  simp only [int64Wrap, h3]
  omega

/-- clampDuration is the identity on values already in the 64-bit range. -/
theorem clampDuration_eq_self {ns : Int} (h1 : -(2 ^ 63) ≤ ns) (h2 : ns ≤ 2 ^ 63 - 1) :
    clampDuration ns = ns := by
  rw [clampDuration, min_eq_left h2, max_eq_right h1]

/-- C2 (amended): for a recognized artifact with a parseable timestamp
and a non-negative threshold of at most 106751 days — the largest whose
24-hour multiple fits in the saturating 64-bit duration; from 106752 on
the clamped age comparison retains everything, see the counterexample —
an age of exactly maxDays * 24 hours is retained, while any strictly
greater age (one hour more in the witness) is deleted when the name
part is not whitelisted: the comparison is strict, in fractional hours,
not whole days or midnight boundaries. -/
theorem C2_threshold_boundary (p ts : String) (dt : DateTime) (maxDays : Int)
    (wl : List String) (nowEq nowGt : Int)
    (hp : parseTimestamp ts = some dt) (hd : 0 ≤ maxDays)
    (hrange : maxDays ≤ 106751)
    (heq : nowEq - toSeconds dt = maxDays * 24 * 3600)
    (hgt : nowGt - toSeconds dt > maxDays * 24 * 3600)
    (hwl : isWhitelisted p wl = false) :
    classify ⟨p, ts, true⟩ maxDays wl nowEq = .skipWithinRetention ∧
    classify ⟨p, ts, true⟩ maxDays wl nowGt = .delete := by
  have hwrap : int64Wrap (maxDays * 24) = maxDays * 24 :=
    int64Wrap_eq_self (by omega) (by omega)
  constructor
  · have h1 : isFileOlderThanDays ts maxDays nowEq = false := by
      simp only [isFileOlderThanDays, hp, hwrap, decide_eq_false_iff_not, not_lt]
      rw [heq, clampDuration_eq_self (by omega) (by omega)]
    simp [classify, h1]
  · have h1 : isFileOlderThanDays ts maxDays nowGt = true := by
      simp only [isFileOlderThanDays, hp, hwrap, decide_eq_true_eq]
      rcases le_or_lt ((nowGt - toSeconds dt) * 1000000000) (2 ^ 63 - 1) with hle | hlt
      · rw [clampDuration_eq_self (by omega) hle]
        omega
      · rw [clampDuration, min_eq_right (by omega), max_eq_right (by omega)]
        omega
    simp [classify, h1, hwl]

/-- C2 witness: with threshold 7 days, an artifact stamped 2025-01-01
00:00:00 is skipped when now is exactly 168 hours later and deleted when
now is 169 hours later. -/
theorem C2_threshold_boundary_witness :
    classify ⟨"backup", "20250101_000000", true⟩ 7 ["other"]
        (toSeconds ⟨2025, 1, 1, 0, 0, 0⟩ + 7 * 24 * 3600) = .skipWithinRetention ∧
    classify ⟨"backup", "20250101_000000", true⟩ 7 ["other"]
        (toSeconds ⟨2025, 1, 1, 0, 0, 0⟩ + 7 * 24 * 3600 + 3600) = .delete :=
  C2_threshold_boundary "backup" "20250101_000000" ⟨2025, 1, 1, 0, 0, 0⟩ 7 ["other"]
    (toSeconds ⟨2025, 1, 1, 0, 0, 0⟩ + 7 * 24 * 3600)
    (toSeconds ⟨2025, 1, 1, 0, 0, 0⟩ + 7 * 24 * 3600 + 3600)
    (by decide) (by decide) (by decide) (by decide) (by decide) (by decide)

/-- C2 counterexample: the claim as stated fails for
maxAgeDays = 200000: the recognized, non-whitelisted key timestamped
0001-01-01 00:00:00 is far more than one hour older than
200000 * 24 hours at now = 2025-10-21 10:00:00, yet the age, saturated
at 2^63 - 1 nanoseconds by Time.Sub, no longer exceeds the threshold,
so the key is retained instead of delete-eligible. -/
theorem C2_threshold_boundary_counterexample :
    parseTimestamp "00010101_000000" = some ⟨1, 1, 1, 0, 0, 0⟩ ∧
    toSeconds ⟨2025, 10, 21, 10, 0, 0⟩ - toSeconds ⟨1, 1, 1, 0, 0, 0⟩
        > 200000 * 24 * 3600 + 3600 ∧
    isWhitelisted "x" [] = false ∧
    classify ⟨"x", "00010101_000000", true⟩ 200000 []
        (toSeconds ⟨2025, 10, 21, 10, 0, 0⟩) = .skipWithinRetention := by
  decide

/-- C3: every string that does not match the canonical pattern decodes
to recognized = false with empty name part and timestamp (no failure is
possible, parseFileName is total), and the cleanup classification of
such a key is always the unrecognized-format skip — never delete. -/
theorem C3_unrecognized_safety (s : String) (h : matchesPattern s = false)
    (maxDays : Int) (wl : List String) (now : Int) :
    parseFileName s = ("", "", false) ∧
    classifyKey s maxDays wl now = .skipUnrecognizedFormat := by
  have hp := parseFileName_eq_of_not_matches s h
  refine ⟨hp, ?_⟩
  simp only [classifyKey, decodeKey, hp]
  simp [classify]

/-- C3 witness: "notes.txt" has no timestamp segment, so it decodes as
unrecognized and is skipped. -/
theorem C3_unrecognized_safety_witness :
    parseFileName "notes.txt" = ("", "", false) ∧
    classifyKey "notes.txt" 7 [] (toSeconds ⟨2025, 10, 21, 10, 0, 0⟩)
        = .skipUnrecognizedFormat :=
  C3_unrecognized_safety "notes.txt" (by decide) 7 [] (toSeconds ⟨2025, 10, 21, 10, 0, 0⟩)

/-- C4: a key whose name matches the recognized pattern but whose
timestamp is not a valid date-time is treated as not old enough and is
never deleted, for every threshold and current time; and in the key
loop such a key leaves the deleted count of the remaining keys
unchanged while the remaining keys are still processed. -/
theorem C4_unparseable_timestamp (p ts : String) (hts : parseTimestamp ts = none)
    (maxDays : Int) (wl : List String) (now : Int) :
    classify ⟨p, ts, true⟩ maxDays wl now = .skipWithinRetention ∧
    (∀ (key : String) (rest : List String) (deleteFn : String → Bool),
      parseFileName key = (p, ts, true) →
      (runKeys (key :: rest) maxDays wl now deleteFn).processed
          = (key, CleanupDecision.skipWithinRetention)
              :: (runKeys rest maxDays wl now deleteFn).processed ∧
      (runKeys (key :: rest) maxDays wl now deleteFn).deletedCount
          = (runKeys rest maxDays wl now deleteFn).deletedCount) := by
  have hold : isFileOlderThanDays ts maxDays now = false := by
    simp [isFileOlderThanDays, hts]
  have hcls : classify ⟨p, ts, true⟩ maxDays wl now = .skipWithinRetention := by
    simp [classify, hold]
  refine ⟨hcls, fun key rest deleteFn hkey => ?_⟩
  have hck : classifyKey key maxDays wl now = .skipWithinRetention := by
    simp only [classifyKey, decodeKey, hkey]
    exact hcls
  constructor <;> simp [runKeys, hck]

/-- C4 witness: month 13 in "x_20251301_000000.txt" fails the timestamp
parse; the key is skipped as within retention even with threshold 0, and
the old key after it is still processed and deleted. -/
theorem C4_unparseable_timestamp_witness :
    classify ⟨"x", "20251301_000000", true⟩ 0 [] (toSeconds ⟨2025, 10, 21, 10, 0, 0⟩)
        = .skipWithinRetention ∧
    (runKeys ["x_20251301_000000.txt", "old_20200101_000000.zip"] 0 []
        (toSeconds ⟨2025, 10, 21, 10, 0, 0⟩) (fun _ => true)).deletedCount
      = (runKeys ["old_20200101_000000.zip"] 0 []
        (toSeconds ⟨2025, 10, 21, 10, 0, 0⟩) (fun _ => true)).deletedCount := by
  have h := C4_unparseable_timestamp "x" "20251301_000000" (by decide) 0 []
    (toSeconds ⟨2025, 10, 21, 10, 0, 0⟩)
  exact ⟨h.1, (h.2 "x_20251301_000000.txt" ["old_20200101_000000.zip"]
    (fun _ => true) (by decide)).2⟩

/-- C5 (amended): isWhitelisted is true exactly when some whitelist
entry equals the decoded name part, case-sensitively; consequently a
whitelist containing "abc" protects neither "abcd" nor "ab" as long as
those exact strings are not themselves entries. -/
theorem C5_whitelist_exact (p : String) (wl : List String) :
    (isWhitelisted p wl = true ↔ p ∈ wl) ∧
    ("abc" ∈ wl → "abcd" ∉ wl → isWhitelisted "abcd" wl = false) ∧
    ("abc" ∈ wl → "ab" ∉ wl → isWhitelisted "ab" wl = false) := by
  have hmem : ∀ (q : String) (l : List String), isWhitelisted q l = true ↔ q ∈ l := by
    intro q l
    induction l with
    | nil => simp [isWhitelisted]
    | cons a t ih => by_cases h : q = a <;> simp [isWhitelisted, h, ih]
  refine ⟨hmem p wl, fun _ h2 => ?_, fun _ h2 => ?_⟩
  · cases h3 : isWhitelisted "abcd" wl with
    | false => rfl
    | true => exact absurd ((hmem _ _).mp h3) h2
  · cases h3 : isWhitelisted "ab" wl with
    | false => rfl
    | true => exact absurd ((hmem _ _).mp h3) h2

/-- C5 witness: with whitelist exactly ["abc"], the entry protects "abc"
itself and neither the longer "abcd" nor the shorter "ab". -/
theorem C5_whitelist_exact_witness :
    isWhitelisted "abc" ["abc"] = true ∧
    isWhitelisted "abcd" ["abc"] = false ∧
    isWhitelisted "ab" ["abc"] = false :=
  ⟨(C5_whitelist_exact "abc" ["abc"]).1.mpr (by decide),
   (C5_whitelist_exact "abcd" ["abc"]).2.1 (by decide) (by decide),
   (C5_whitelist_exact "ab" ["abc"]).2.2 (by decide) (by decide)⟩

/-- C5 counterexample: the claim's "for every whitelist containing
"abc", a decoded name part "abcd" is not protected" fails when "abcd"
is itself an entry: the whitelist ["abc", "abcd"] contains "abc", yet an
old recognized artifact with decoded name part "abcd" is skipped as
whitelisted, i.e. protected. -/
theorem C5_whitelist_exact_counterexample :
    "abc" ∈ ["abc", "abcd"] ∧
    classify ⟨"abcd", "20200101_000000", true⟩ 7 ["abc", "abcd"]
        (toSeconds ⟨2025, 10, 21, 10, 0, 0⟩) = .skipWhitelisted := by decide

/-- C6: the lazy first capture group splits
"report_20250101_000000_20251021_095449.csv" at the earliest
timestamp-looking segment that is immediately followed by a dot and a
non-empty extension, giving the longer first group and the second
embedded timestamp. -/
theorem C6_nonGreedy_decode :
    parseFileName "report_20250101_000000_20251021_095449.csv"
      = ("report_20250101_000000", "20251021_095449", true) := by decide

/-- C7 (amended): encoding a logical name L with timestamp T and a
non-empty extension e — so the source path is L.e — and decoding the
result recovers exactly (L, T, recognized = true), provided L is
non-empty, L and e are free of newlines and separators, e contains no
dot, and L contains no ambiguous underscore-8-digits-underscore-6-digits
substring.  (With an extension-less source path the encoded name has no
dot and decodes as unrecognized; see the counterexample.) -/
theorem C7_roundTrip (L T e : String)
    (hL : L.toList ≠ []) (hLn : ∀ c ∈ L.toList, c ≠ '\n')
    (hLs : ∀ c ∈ L.toList, c ≠ '/')
    (hamb : hasAmbiguousTs L = false)
    (hT : tsShape T.toList = true)
    (he : e.toList ≠ []) (hen : ∀ c ∈ e.toList, c ≠ '\n')
    (hes : ∀ c ∈ e.toList, c ≠ '/') (hed : ∀ c ∈ e.toList, c ≠ '.') :
    parseFileName (generateFileName (L ++ "." ++ e) false T) = (L, T, true) := by
  have hTlen : T.toList.length = 15 := tsShape_length hT
  have hgen := generateFileName_file_toList L e T hL hLs hes hed
  set S : List Char := L.toList ++ ('_' :: (T.toList ++ ('.' :: e.toList))) with hS
  set n := L.toList.length with hn_def
  have hn : 0 < n := List.length_pos.mpr hL
  have hSn : S.drop n = '_' :: (T.toList ++ ('.' :: e.toList)) := List.drop_left' rfl
  have htake : S.take n = L.toList := List.take_left' rfl
  have hnl : n ≤ S.length := by
    rw [hS]
    simp only [List.length_append, List.length_cons]
    omega
  have hpre : ∀ c ∈ S.take n, c ≠ '\n' := by
    rw [htake]
    exact hLn
  have hmatch : tailMatch (S.drop n) = some T.toList := by
    rw [hSn]
    exact tailMatch_of_shape T.toList e.toList hT he hen
  have hmin : ∀ i, 0 < i → i < n → tailMatch (S.drop i) = none := by
    intro i hi hilt
    by_cases hk : 16 ≤ n - i
    · cases ht : tailMatch (S.drop i) with
      | none => rfl
      | some ts =>
        exfalso
        have hdropS : S.drop i = L.toList.drop i ++ ('_' :: (T.toList ++ ('.' :: e.toList))) :=
          List.drop_append_of_le_length (by omega)
        have ha : ambigAt (S.drop i) = true := ambigAt_of_tailMatch ht
        rw [hdropS] at ha
        have hlen16 : 16 ≤ (L.toList.drop i).length := by
          rw [List.length_drop]
          omega
        have ha2 : ambigAt (L.toList.drop i) = true := ambigAt_append hlen16 ha
        have hcontra : hasAmbiguousTs L = true := by
          rw [hasAmbiguousTs, List.any_eq_true]
          exact ⟨i, List.mem_range.mpr (by omega), ha2⟩
        rw [hcontra] at hamb
        exact absurd hamb (by simp)
    · apply tailMatch_none_of_no_dot
      have h1 : (S.drop i).drop 16 = S.drop (i + 16) := by
        rw [List.drop_drop]
      have h2 : S.drop (i + 16) = ('_' :: (T.toList ++ ('.' :: e.toList))).drop (i + 16 - n) := by
        rw [← hSn, List.drop_drop]
        congr 1
        omega
      obtain ⟨j, hj, hj14⟩ : ∃ j, i + 16 - n = j + 1 ∧ j ≤ 14 := ⟨i + 15 - n, by omega, by omega⟩
      have h3 : ('_' :: (T.toList ++ ('.' :: e.toList))).drop (i + 16 - n)
          = (T.toList ++ ('.' :: e.toList)).drop j := by
        rw [hj]
        rfl
      have h4 : (T.toList ++ ('.' :: e.toList)).drop j
          = T.toList.drop j ++ ('.' :: e.toList) :=
        List.drop_append_of_le_length (by omega)
      rcases htc : T.toList.drop j with _ | ⟨c, t⟩
      · exfalso
        have hlen0 := congrArg List.length htc
        rw [List.length_drop, List.length_nil] at hlen0
        omega
      · have hcmem : c ∈ T.toList :=
          List.mem_of_mem_drop (htc ▸ List.mem_cons_self c t)
        have hcnot : c ≠ '.' := tsShape_no_dot hT c hcmem
        rw [h1, h2, h3, h4, htc]
        simp [hcnot]
  have hsome : findSplit [] S = some ([] ++ S.take n, T.toList) :=
    findSplit_eq_some S n T.toList hn hnl hpre hmatch hmin []
  rw [htake, List.nil_append] at hsome
  have hSdata : (generateFileName (L ++ "." ++ e) false T).data = S := hgen
  simp only [parseFileName, String.toList, hSdata, hsome]

/-- C7 witness: source path "backup.zip" with timestamp
"20251021_095449" encodes to "backup_20251021_095449.zip", which decodes
back to ("backup", "20251021_095449", recognized). -/
theorem C7_roundTrip_witness :
    parseFileName (generateFileName ("backup" ++ "." ++ "zip") false "20251021_095449")
      = ("backup", "20251021_095449", true) :=
  C7_roundTrip "backup" "20251021_095449" "zip" (by decide) (by decide) (by decide)
    (by decide) (by decide) (by decide) (by decide) (by decide) (by decide)

/-- C7 counterexample: the claim as stated fails for a logical name with
no extension: "notes" has no ambiguous substring and the timestamp is
well-formed, yet the encoded name "notes_20250101_000000" contains no
dot, so decoding yields ("", "", false), not ("notes",
"20250101_000000", true). -/
theorem C7_roundTrip_counterexample :
    hasAmbiguousTs "notes" = false ∧ tsShape "20250101_000000".toList = true ∧
    generateFileName "notes" false "20250101_000000" = "notes_20250101_000000" ∧
    parseFileName (generateFileName "notes" false "20250101_000000") = ("", "", false) := by
  decide

/-- C8 (amended): the retention threshold falls back to the default 7
when CLEANUP_DAYS is absent (empty) or not parseable as an integer, and
otherwise is exactly the parsed integer — which may be negative, so the
threshold is not always non-negative. -/
theorem C8_retention_default (s : String) :
    (s = "" → cleanupDaysOf s = 7) ∧
    (atoi s = none → cleanupDaysOf s = 7) ∧
    (∀ d : Int, s ≠ "" → atoi s = some d → cleanupDaysOf s = d) := by
  refine ⟨fun h => by simp [cleanupDaysOf, h], fun h => ?_, fun d h1 h2 => ?_⟩
  · by_cases hs : s = "" <;> simp [cleanupDaysOf, hs, h]
  · simp [cleanupDaysOf, h1, h2]

/-- C8 witness: empty and unparseable values fall back to 7, a parseable
one is used as parsed. -/
theorem C8_retention_default_witness :
    cleanupDaysOf "" = 7 ∧ cleanupDaysOf "x7" = 7 ∧ cleanupDaysOf "10" = 10 :=
  ⟨(C8_retention_default "").1 rfl,
   (C8_retention_default "x7").2.1 (by decide),
   (C8_retention_default "10").2.2 10 (by decide) (by decide)⟩

/-- C8 counterexample: CLEANUP_DAYS = "-3" parses successfully, so the
pass runs with the negative threshold -3 — the claim that the threshold
used is a non-negative integer fails. -/
theorem C8_retention_default_counterexample :
    cleanupDaysOf "-3" = -3 ∧ cleanupDaysOf "-3" < 0 := by decide

/-- C9: in one cleanup pass every key is classified, in order, no matter
how deletions of earlier keys fare, and the reported deleted count is
exactly the number of delete-classified keys whose deletion succeeded. -/
theorem C9_partial_failure_isolation (keys : List String) (maxDays : Int) (wl : List String)
    (now : Int) (deleteFn : String → Bool) :
    (runKeys keys maxDays wl now deleteFn).processed
        = keys.map (fun k => (k, classifyKey k maxDays wl now)) ∧
    (runKeys keys maxDays wl now deleteFn).deletedCount
        = (keys.filter fun k =>
            decide (classifyKey k maxDays wl now = CleanupDecision.delete) && deleteFn k).length := by
  induction keys with
  | nil => simp [runKeys]
  | cons k rest ih =>
    by_cases hd : classifyKey k maxDays wl now = CleanupDecision.delete
    · by_cases hf : deleteFn k = true <;>
        simp [runKeys, List.filter_cons, hd, hf, ih.1, ih.2]
    · simp [runKeys, List.filter_cons, hd, ih.1, ih.2]

/-- C10: whenever CLEANUP_ENABLED is any string other than exactly
"true" — absent (empty), "TRUE", "1", anything — performCleanup returns
immediately: nothing is listed, no key is classified, and the deleted
count is zero, regardless of the keys' ages. -/
theorem C10_cleanup_enabled_gate (cleanupEnabled cleanupDaysStr whitelistStr : String)
    (keys : List String) (now : Int) (deleteFn : String → Bool)
    (h : cleanupEnabled ≠ "true") :
    performCleanup cleanupEnabled cleanupDaysStr whitelistStr keys now deleteFn
      = ⟨false, [], 0⟩ := by
  simp [performCleanup, h]

/-- C10 witness: with the gate set to "TRUE", "" or "1", a key far older
than the threshold is not touched. -/
theorem C10_cleanup_enabled_gate_witness :
    performCleanup "TRUE" "7" "" ["backup_20200101_000000.zip"] 999999999999 (fun _ => true)
        = ⟨false, [], 0⟩ ∧
    performCleanup "" "7" "" ["backup_20200101_000000.zip"] 999999999999 (fun _ => true)
        = ⟨false, [], 0⟩ ∧
    performCleanup "1" "7" "" ["backup_20200101_000000.zip"] 999999999999 (fun _ => true)
        = ⟨false, [], 0⟩ :=
  ⟨C10_cleanup_enabled_gate "TRUE" "7" "" ["backup_20200101_000000.zip"] 999999999999
      (fun _ => true) (by decide),
   C10_cleanup_enabled_gate "" "7" "" ["backup_20200101_000000.zip"] 999999999999
      (fun _ => true) (by decide),
   C10_cleanup_enabled_gate "1" "7" "" ["backup_20200101_000000.zip"] 999999999999
      (fun _ => true) (by decide)⟩

end Vcpsave
